import Mathlib

/-!
Verification of the deterministic-address keyed account store of the
solana-workshop repository: the memo program (state, instructions,
processor) and the token-metadata program, together with the host-ledger
primitives they call (account creation, rent sizing, program-derived
address search), shallowly embedded in Lean.

Bytes are modelled as `Nat` (a well-formed byte is `< 256`), public keys
as byte lists, and u64 lamport balances as `Nat` with explicit `2 ^ 64`
bounds at each checked-arithmetic site.  Fallible processors return
`Except`: an `error` result means the host ledger discards every write of
the enclosing transaction, so no mutated state is produced.
-/

/-- A public key / address: a byte list (32 bytes when well formed). -/
abbrev Pubkey := List Nat

/-- The system program id (all-zero key), owner of not-yet-created accounts. -/
def systemProgramId : Pubkey := List.replicate 32 0

/-- One account as the runtime hands it to a program: address, whether the
host ledger verified its signature for this instruction, balance, data
bytes, and owning program. -/
structure AccountInfo where
  key : Pubkey
  isSigner : Bool
  lamports : Nat
  data : List Nat
  owner : Pubkey
  deriving DecidableEq, Repr

/-- Error codes surfaced by the embedded programs: the `MemoError` enum of
`error.rs`, the `ProgramError` variants the processors construct, and the
host-ledger failures of the modelled primitives. -/
inductive ProgError where
  | invalidInstruction
  | notRentExempt
  | expectedAmountMismatch
  | memoTooLong
  | uninitializedAccount
  | unauthorized
  | missingRequiredSignature
  | incorrectProgramId
  | arithmeticOverflow
  | borshIoError
  | invalidArgument
  | alreadyInitialized
  | insufficientFunds
  | dataTooLarge
  | notEnoughAccountKeys
  deriving DecidableEq, Repr

/-! ## Borsh codec (RecordCodec) -/

/-- Little-endian 4-byte encoding of a u32 length, as borsh writes it. -/
def u32le (n : Nat) : List Nat :=
  [n % 256, n / 256 % 256, n / 65536 % 256, n / 16777216 % 256]

/-- Strict read of a little-endian u32 from the front of a byte list. -/
def readU32 (bs : List Nat) : Option (Nat × List Nat) :=
  match bs with
  | b0 :: b1 :: b2 :: b3 :: rest =>
      some (b0 + 256 * b1 + 65536 * b2 + 16777216 * b3, rest)
  | _ => none

/-- Strict read of exactly `n` raw bytes from the front of a byte list. -/
def readBytes (n : Nat) (bs : List Nat) : Option (List Nat × List Nat) :=
  if n ≤ bs.length then some (bs.take n, bs.drop n) else none

/-- Borsh bool: one byte, `0` or `1`; any other leading byte is a decode
error. -/
def readBool (bs : List Nat) : Option (Bool × List Nat) :=
  match bs with
  | 0 :: rest => some (false, rest)
  | 1 :: rest => some (true, rest)
  | _ => none

/-- Borsh string / byte blob: 4-byte little-endian length prefix followed by
exactly that many raw bytes. -/
def readString (bs : List Nat) : Option (List Nat × List Nat) :=
  match readU32 bs with
  | none => none
  | some (n, rest) => readBytes n rest

/-- Length-prefixed encoding of a string's bytes, as borsh writes it. -/
def encodeString (s : List Nat) : List Nat := u32le s.length ++ s

/-! ## Memo record (state.rs) -/

/-- The memo record payload: `is_initialized: bool`, `authority: Pubkey`,
`content: String` (content held as its UTF-8 bytes). -/
structure Memo where
  is_initialized : Bool
  authority : Pubkey
  content : List Nat
  deriving DecidableEq, Repr

/-- `Memo::MAX_CONTENT_LENGTH` from `state.rs`. -/
def Memo.MAX_CONTENT_LENGTH : Nat := 1000

/-- A memo payload is valid when the authority is 32 well-formed bytes, the
content bytes are well formed, and the content fits a u32 length prefix. -/
def Memo.valid (m : Memo) : Prop :=
  m.authority.length = 32 ∧ (∀ b ∈ m.authority, b < 256) ∧
    (∀ b ∈ m.content, b < 256) ∧ m.content.length < 4294967296

instance : DecidablePred Memo.valid := fun m => by
  unfold Memo.valid; infer_instance

/-- Borsh serialization of a memo record: bool byte, 32 authority bytes,
length-prefixed content. -/
def encodeMemo (m : Memo) : List Nat :=
  (if m.is_initialized then 1 else 0) :: (m.authority ++ encodeString m.content)

/-- Borsh deserialization of a memo record, returning the remaining bytes. -/
def decodeMemo (bs : List Nat) : Option (Memo × List Nat) :=
  match readBool bs with
  | none => none
  | some (b, r1) =>
    match readBytes 32 r1 with
    | none => none
    | some (auth, r2) =>
      match readString r2 with
      | none => none
      | some (content, r3) => some (⟨b, auth, content⟩, r3)

/-- `Memo::try_from_slice`: borsh deserialization that also rejects
trailing bytes. -/
def decodeMemoExact (bs : List Nat) : Option Memo :=
  match decodeMemo bs with
  | some (m, []) => some m
  | _ => none

/-! ## Token metadata record (token-metadata state.rs) -/

/-- The token-metadata record payload: `mint: Pubkey` and four
variable-length strings.  It stores no authority identifier. -/
structure TokenMetadata where
  mint : Pubkey
  name : List Nat
  symbol : List Nat
  icon : List Nat
  home : List Nat
  deriving DecidableEq, Repr

/-- A token-metadata payload is valid when the mint is 32 well-formed bytes
and each string's bytes are well formed and fit a u32 length prefix. -/
def TokenMetadata.valid (t : TokenMetadata) : Prop :=
  t.mint.length = 32 ∧ (∀ b ∈ t.mint, b < 256) ∧
    (∀ b ∈ t.name, b < 256) ∧ t.name.length < 4294967296 ∧
    (∀ b ∈ t.symbol, b < 256) ∧ t.symbol.length < 4294967296 ∧
    (∀ b ∈ t.icon, b < 256) ∧ t.icon.length < 4294967296 ∧
    (∀ b ∈ t.home, b < 256) ∧ t.home.length < 4294967296

instance : DecidablePred TokenMetadata.valid := fun t => by
  unfold TokenMetadata.valid; infer_instance

/-- Borsh serialization of a token-metadata record. -/
def encodeTokenMetadata (t : TokenMetadata) : List Nat :=
  t.mint ++ encodeString t.name ++ encodeString t.symbol ++
    encodeString t.icon ++ encodeString t.home

/-- Borsh deserialization of a token-metadata record, returning the
remaining bytes. -/
def decodeTokenMetadata (bs : List Nat) : Option (TokenMetadata × List Nat) :=
  match readBytes 32 bs with
  | none => none
  | some (mint, r1) =>
    match readString r1 with
    | none => none
    | some (name, r2) =>
      match readString r2 with
      | none => none
      | some (symbol, r3) =>
        match readString r3 with
        | none => none
        | some (icon, r4) =>
          match readString r4 with
          | none => none
          | some (home, r5) => some (⟨mint, name, symbol, icon, home⟩, r5)

/-- `TokenMetadata::try_from_slice`: borsh deserialization rejecting
trailing bytes. -/
def decodeTokenMetadataExact (bs : List Nat) : Option TokenMetadata :=
  match decodeTokenMetadata bs with
  | some (t, []) => some t
  | _ => none

/-! ## Host-ledger primitives (RentSizer, account creation, serialization
into a fixed account buffer, program-derived addresses).  These are the
external collaborators the programs invoke; they are not part of the
repository's sources and are modelled from the spec. -/

/-- Modelled from the spec: the host-ledger rent parameters (RentSizer).
`minimumBalance` is the rent-exempt minimum for a byte length — the
byte-length-proportional storage cost (including the per-account overhead)
scaled by the exemption threshold — and per the glossary an account is
exempt exactly when its balance reaches `minimumBalance` of its length. -/
structure Rent where
  lamportsPerByteYear : Nat
  exemptionThreshold : Nat
  deriving DecidableEq, Repr

/-- Rent-exempt minimum balance for `dataLen` bytes of account storage. -/
def Rent.minimumBalance (r : Rent) (dataLen : Nat) : Nat :=
  (128 + dataLen) * r.lamportsPerByteYear * r.exemptionThreshold

/-- `Rent::is_exempt`: the balance covers the rent-exempt minimum. -/
def Rent.isExempt (r : Rent) (balance dataLen : Nat) : Bool :=
  decide (r.minimumBalance dataLen ≤ balance)

/-- `u64::checked_add` on lamport balances: fails instead of wrapping when
the sum leaves the 64-bit range. -/
def checkedAdd (a b : Nat) : Option Nat :=
  if a + b < 18446744073709551616 then some (a + b) else none

/-- Modelled from the spec: the host-ledger `create_account` primitive
invoked by Create/Initialize.  A Record already existing at the target
address (nonzero balance, nonempty data, or an owner already assigned)
fails `AlreadyInitialized` — the store never silently overwrites; then the
funding party pays the requested balance into the freshly allocated,
zero-filled account. -/
def createAccount (ownerPid : Pubkey) (lamports space : Nat)
    (payer target : AccountInfo) : Except ProgError (AccountInfo × AccountInfo) :=
  if target.lamports ≠ 0 ∨ target.data ≠ [] ∨ target.owner ≠ systemProgramId then
    .error .alreadyInitialized
  else if payer.lamports < lamports then
    .error .insufficientFunds
  else
    .ok ({ payer with lamports := payer.lamports - lamports },
         { target with lamports := lamports, data := List.replicate space 0,
                       owner := ownerPid })

/-- Modelled from the spec: borsh serialization into a fixed account
buffer.  When the encoded payload is longer than the allocated byte
length the write fails — the spec's `DataTooLarge` class (surfaced by the
host library as a Borsh IO error); otherwise the encoding overwrites the
front of the buffer and the trailing bytes are left as they were. -/
def writeData (buf enc : List Nat) : Except ProgError (List Nat) :=
  if buf.length < enc.length then .error .dataTooLarge
  else .ok (enc ++ buf.drop enc.length)

/-- Modelled from the spec: one trial of the host address derivation —
hash the seeds, program id and trial bump; a result inside the forbidden
(on-curve) subspace is rejected. -/
def createProgramAddress (hash : List (List Nat) → Pubkey → Nat → Pubkey)
    (onCurve : Pubkey → Bool) (seeds : List (List Nat)) (pid : Pubkey)
    (bump : Nat) : Option Pubkey :=
  let a := hash seeds pid bump
  if onCurve a then none else some a

/-- Bump search from a starting trial value downward: the first bump (from
`start` descending to 0) whose derived address is off curve wins. -/
def fpaFrom (hash : List (List Nat) → Pubkey → Nat → Pubkey)
    (onCurve : Pubkey → Bool) (seeds : List (List Nat)) (pid : Pubkey) :
    Nat → Option (Pubkey × Nat)
  | 0 =>
    match createProgramAddress hash onCurve seeds pid 0 with
    | some a => some (a, 0)
    | none => none
  | b + 1 =>
    match createProgramAddress hash onCurve seeds pid (b + 1) with
    | some a => some (a, b + 1)
    | none => fpaFrom hash onCurve seeds pid b

/-- Modelled from the spec: `find_program_address` — the canonical bump is
searched from 255 down to 0, and the derivation is a pure function of the
seeds and the owning module identifier. -/
def findProgramAddress (hash : List (List Nat) → Pubkey → Nat → Pubkey)
    (onCurve : Pubkey → Bool) (seeds : List (List Nat)) (pid : Pubkey) :
    Option (Pubkey × Nat) :=
  fpaFrom hash onCurve seeds pid 255

/-! ## Memo processor (processor.rs) -/

/-- `Processor::process_initialize`: content-length cap, payer and
authority signature checks, account creation funded to the rent-exempt
minimum for the encoded size, then serialization of the new record.
Accounts: payer, memo account, authority, system program. -/
def processInit (pid : Pubkey) (rent : Rent) (accounts : List AccountInfo)
    (content : List Nat) : Except ProgError (List AccountInfo) :=
  match accounts with
  | payerInfo :: memoAccountInfo :: authorityInfo :: systemProgramInfo :: rest =>
    if Memo.MAX_CONTENT_LENGTH < content.length then .error .memoTooLong
    else if payerInfo.isSigner = false then .error .missingRequiredSignature
    else if authorityInfo.isSigner = false then .error .missingRequiredSignature
    else
      let memo : Memo := ⟨true, authorityInfo.key, content⟩
      let space := (encodeMemo memo).length
      let rentLamports := rent.minimumBalance space
      match createAccount pid rentLamports space payerInfo memoAccountInfo with
      | .error e => .error e
      | .ok (payerInfo2, memoAccountInfo2) =>
        match writeData memoAccountInfo2.data (encodeMemo memo) with
        | .error e => .error e
        | .ok newData =>
          .ok (payerInfo2 :: { memoAccountInfo2 with data := newData } ::
               authorityInfo :: systemProgramInfo :: rest)
  | _ => .error .notEnoughAccountKeys

/-- `Processor::process_update`: content cap, program-ownership check,
signature check, deserialization of the stored record, initialization and
authority checks, then re-serialization with the new content into the
existing buffer.  Accounts: authority, memo account. -/
def processUpdate (pid : Pubkey) (accounts : List AccountInfo)
    (content : List Nat) : Except ProgError (List AccountInfo) :=
  match accounts with
  | authorityInfo :: memoAccountInfo :: rest =>
    if Memo.MAX_CONTENT_LENGTH < content.length then .error .memoTooLong
    else if memoAccountInfo.owner ≠ pid then .error .incorrectProgramId
    else if authorityInfo.isSigner = false then .error .missingRequiredSignature
    else
      match decodeMemoExact memoAccountInfo.data with
      | none => .error .borshIoError
      | some memoData =>
        if memoData.is_initialized = false then .error .uninitializedAccount
        else if memoData.authority ≠ authorityInfo.key then .error .unauthorized
        else
          match writeData memoAccountInfo.data
              (encodeMemo { memoData with content := content }) with
          | .error e => .error e
          | .ok newData =>
            .ok (authorityInfo :: { memoAccountInfo with data := newData } :: rest)
  | _ => .error .notEnoughAccountKeys

/-- `Processor::process_delete`: ownership, signature, deserialization,
initialization and authority checks; then the record's whole balance is
moved to the receiver with `checked_add` (failing `ArithmeticOverflow`
rather than wrapping), the record's balance is zeroed and every data byte
is zeroed.  Accounts: authority, memo account, receiver. -/
def processDelete (pid : Pubkey) (accounts : List AccountInfo) :
    Except ProgError (List AccountInfo) :=
  match accounts with
  | authorityInfo :: memoAccountInfo :: receiverInfo :: rest =>
    if memoAccountInfo.owner ≠ pid then .error .incorrectProgramId
    else if authorityInfo.isSigner = false then .error .missingRequiredSignature
    else
      match decodeMemoExact memoAccountInfo.data with
      | none => .error .borshIoError
      | some memoData =>
        if memoData.is_initialized = false then .error .uninitializedAccount
        else if memoData.authority ≠ authorityInfo.key then .error .unauthorized
        else
          match checkedAdd receiverInfo.lamports memoAccountInfo.lamports with
          | none => .error .arithmeticOverflow
          | some newReceiverLamports =>
            .ok (authorityInfo ::
                 { memoAccountInfo with
                     lamports := 0
                     data := List.replicate memoAccountInfo.data.length 0 } ::
                 { receiverInfo with lamports := newReceiverLamports } :: rest)
  | _ => .error .notEnoughAccountKeys

/-! ## Memo instruction decoding and dispatch -/

/-- The memo instruction set: discriminator 0 creates with a content
string, 1 updates with a content string, 2 deletes. -/
inductive MemoIx where
  | create (content : List Nat)
  | update (content : List Nat)
  | del
  deriving DecidableEq, Repr

/-- Borsh decoding of `MemoInstruction` (`try_from_slice`): the leading
discriminator byte selects the variant's schema for the remaining bytes,
trailing bytes are rejected, and any discriminator outside 0, 1, 2 is a
decode error. -/
def decodeMemoIx (bs : List Nat) : Option MemoIx :=
  match bs with
  | [] => none
  | v :: rest =>
    if v = 0 then
      match readString rest with
      | some (c, []) => some (.create c)
      | _ => none
    else if v = 1 then
      match readString rest with
      | some (c, []) => some (.update c)
      | _ => none
    else if v = 2 then
      if rest = [] then some .del else none
    else none

/-- `Processor::process` for the memo program: decode the instruction
(mapping every decode failure to `InvalidInstruction` before any account
is read) and dispatch to the matching handler. -/
def memoProcess (pid : Pubkey) (rent : Rent) (accounts : List AccountInfo)
    (instructionData : List Nat) : Except ProgError (List AccountInfo) :=
  match decodeMemoIx instructionData with
  | none => .error .invalidInstruction
  | some (.create c) => processInit pid rent accounts c
  | some (.update c) => processUpdate pid accounts c
  | some .del => processDelete pid accounts

/-! ## Token-metadata instruction decoding, processors and dispatch -/

/-- The token-metadata instruction set: discriminator 0 registers, 1
updates, each carrying four strings. -/
inductive TokenIx where
  | register (name symbol icon home : List Nat)
  | update (name symbol icon home : List Nat)
  deriving DecidableEq, Repr

/-- Borsh decoding of `TokenMetadataInstruction` (`try_from_slice`):
discriminators 0 and 1, four length-prefixed strings, no trailing bytes. -/
def decodeTokenIx (bs : List Nat) : Option TokenIx :=
  match bs with
  | [] => none
  | v :: rest =>
    if v = 0 ∨ v = 1 then
      match readString rest with
      | none => none
      | some (name, r1) =>
        match readString r1 with
        | none => none
        | some (symbol, r2) =>
          match readString r2 with
          | none => none
          | some (icon, r3) =>
            match readString r3 with
            | some (home, []) =>
              if v = 0 then some (.register name symbol icon home)
              else some (.update name symbol icon home)
            | _ => none
    else none

/-- The literal seed tag `"metadata"` used for the metadata PDA. -/
def metadataSeed : List Nat := [109, 101, 116, 97, 100, 97, 116, 97]

/-- `Processor::process_register_metadata`: signature check, re-derivation
of the metadata PDA from `["metadata", token program, mint]` and
comparison with the caller-supplied account, account creation funded to
the rent-exempt minimum of the encoded size, then serialization.
Accounts: authority, metadata PDA, mint, SPL token program, system
program.  The host hash behind `find_program_address` is passed in as
`fpa`. -/
def processRegisterMetadata (fpa : List (List Nat) → Pubkey → Pubkey × Nat)
    (pid : Pubkey) (rent : Rent) (accounts : List AccountInfo)
    (name symbol icon home : List Nat) : Except ProgError (List AccountInfo) :=
  match accounts with
  | authorityInfo :: metadataAccountInfo :: mintAccountInfo ::
      splTokenProgramInfo :: systemProgramInfo :: rest =>
    if authorityInfo.isSigner = false then .error .missingRequiredSignature
    else
      let derived := fpa [metadataSeed, splTokenProgramInfo.key, mintAccountInfo.key] pid
      if derived.1 ≠ metadataAccountInfo.key then .error .invalidArgument
      else
        let tm : TokenMetadata := ⟨mintAccountInfo.key, name, symbol, icon, home⟩
        let size := (encodeTokenMetadata tm).length
        let rentLamports := rent.minimumBalance size
        match createAccount pid rentLamports size authorityInfo metadataAccountInfo with
        | .error e => .error e
        | .ok (authorityInfo2, metadataAccountInfo2) =>
          match writeData metadataAccountInfo2.data (encodeTokenMetadata tm) with
          | .error e => .error e
          | .ok newData =>
            .ok (authorityInfo2 :: { metadataAccountInfo2 with data := newData } ::
                 mintAccountInfo :: splTokenProgramInfo :: systemProgramInfo :: rest)
  | _ => .error .notEnoughAccountKeys

/-- `Processor::process_update_metadata`: signature check, PDA
re-derivation and comparison, program-ownership check, then the new
metadata is serialized straight into the account buffer.  The stored
payload is never deserialized and no stored-authority comparison exists —
the schema stores no authority.  Accounts: authority, metadata PDA, mint,
SPL token program. -/
def processUpdateMetadata (fpa : List (List Nat) → Pubkey → Pubkey × Nat)
    (pid : Pubkey) (accounts : List AccountInfo)
    (name symbol icon home : List Nat) : Except ProgError (List AccountInfo) :=
  match accounts with
  | authorityInfo :: metadataAccountInfo :: mintAccountInfo ::
      splTokenProgramInfo :: rest =>
    if authorityInfo.isSigner = false then .error .missingRequiredSignature
    else
      let derived := fpa [metadataSeed, splTokenProgramInfo.key, mintAccountInfo.key] pid
      if derived.1 ≠ metadataAccountInfo.key then .error .invalidArgument
      else if metadataAccountInfo.owner ≠ pid then .error .incorrectProgramId
      else
        let tm : TokenMetadata := ⟨mintAccountInfo.key, name, symbol, icon, home⟩
        match writeData metadataAccountInfo.data (encodeTokenMetadata tm) with
        | .error e => .error e
        | .ok newData =>
          .ok (authorityInfo :: { metadataAccountInfo with data := newData } ::
               mintAccountInfo :: splTokenProgramInfo :: rest)
  | _ => .error .notEnoughAccountKeys

/-- `Processor::process` for the token-metadata program: `try_from_slice`
failures (including unknown discriminators) propagate as a Borsh IO error
before any account is read. -/
def tokenProcess (fpa : List (List Nat) → Pubkey → Pubkey × Nat)
    (pid : Pubkey) (rent : Rent) (accounts : List AccountInfo)
    (instructionData : List Nat) : Except ProgError (List AccountInfo) :=
  match decodeTokenIx instructionData with
  | none => .error .borshIoError
  | some (.register n s i h) => processRegisterMetadata fpa pid rent accounts n s i h
  | some (.update n s i h) => processUpdateMetadata fpa pid accounts n s i h

/-! ## Rent-exemption check (sysvar demo) -/

/-- `check_rent_exemption` from the sysvar demo: PDA verification, then
the rent-exemption test; when the account is not exempt the shortfall is
computed with `saturating_sub` (`Nat` subtraction truncates at zero
exactly as `u64::saturating_sub` does) and logged.  The model returns the
computed shortfall (`none` when exempt) so the arithmetic step is
observable. -/
def checkRentExemption (fpa : List (List Nat) → Pubkey → Pubkey × Nat)
    (pid : Pubkey) (rent : Rent) (accounts : List AccountInfo)
    (accountSeed : List Nat) : Except ProgError (Option Nat) :=
  match accounts with
  | pdaAccount :: _ =>
    let derived := fpa [accountSeed] pid
    if derived.1 ≠ pdaAccount.key then .error .invalidArgument
    else if rent.isExempt pdaAccount.lamports pdaAccount.data.length then .ok none
    else .ok (some (rent.minimumBalance pdaAccount.data.length - pdaAccount.lamports))
  | [] => .error .notEnoughAccountKeys

/-! ## Codec lemmas -/

/-- Reading back a little-endian u32 recovers any length below `2 ^ 32`. -/
theorem readU32_u32le (n : Nat) (r : List Nat) (h : n < 4294967296) :
    readU32 (u32le n ++ r) = some (n, r) := by
  simp only [u32le, readU32, List.cons_append, List.nil_append]
  congr 1
  congr 1
  omega

/-- Reading exactly the length of a prefix returns that prefix and the
tail. -/
theorem readBytes_append (p r : List Nat) : readBytes p.length (p ++ r) = some (p, r) := by
  simp [readBytes, List.take_left, List.drop_left]

/-- Reading a length-prefixed string back off the wire recovers it. -/
theorem readString_encodeString (s r : List Nat) (h : s.length < 4294967296) :
    readString (encodeString s ++ r) = some (s, r) := by
  unfold readString
  rw [show encodeString s ++ r = u32le s.length ++ (s ++ r) by
    simp [encodeString]]
  rw [readU32_u32le s.length (s ++ r) h]
  exact readBytes_append s r

/-- Decoding an encoded memo record recovers it, leaving the tail. -/
theorem decodeMemo_encodeMemo (m : Memo) (r : List Nat)
    (hauth : m.authority.length = 32) (hlen : m.content.length < 4294967296) :
    decodeMemo (encodeMemo m ++ r) = some (m, r) := by
  obtain ⟨init, auth, content⟩ := m
  simp only at hauth hlen
  have hb : encodeMemo ⟨init, auth, content⟩ ++ r =
      (if init then 1 else 0) :: (auth ++ (encodeString content ++ r)) := by
    simp [encodeMemo, List.append_assoc]
  unfold decodeMemo
  rw [hb]
  have hrb : readBool ((if init then 1 else 0) :: (auth ++ (encodeString content ++ r))) =
      some (init, auth ++ (encodeString content ++ r)) := by
    cases init <;> rfl
  have h32 : readBytes 32 (auth ++ (encodeString content ++ r)) =
      some (auth, encodeString content ++ r) := by
    rw [show (32 : Nat) = auth.length from hauth.symm]
    exact readBytes_append auth (encodeString content ++ r)
  simp only [hrb, h32, readString_encodeString content r hlen]

/-- Decoding an encoded token-metadata record recovers it, leaving the
tail. -/
theorem decodeTokenMetadata_encodeTokenMetadata (t : TokenMetadata) (r : List Nat)
    (hmint : t.mint.length = 32) (hname : t.name.length < 4294967296)
    (hsymbol : t.symbol.length < 4294967296) (hicon : t.icon.length < 4294967296)
    (hhome : t.home.length < 4294967296) :
    decodeTokenMetadata (encodeTokenMetadata t ++ r) = some (t, r) := by
  obtain ⟨mint, name, symbol, icon, home⟩ := t
  simp only at hmint hname hsymbol hicon hhome
  have hb : encodeTokenMetadata ⟨mint, name, symbol, icon, home⟩ ++ r =
      mint ++ (encodeString name ++ (encodeString symbol ++
        (encodeString icon ++ (encodeString home ++ r)))) := by
    simp [encodeTokenMetadata, List.append_assoc]
  unfold decodeTokenMetadata
  rw [hb]
  have h32 : readBytes 32 (mint ++ (encodeString name ++ (encodeString symbol ++
      (encodeString icon ++ (encodeString home ++ r))))) =
      some (mint, encodeString name ++ (encodeString symbol ++
        (encodeString icon ++ (encodeString home ++ r)))) := by
    rw [show (32 : Nat) = mint.length from hmint.symm]
    exact readBytes_append mint _
  simp only [h32, readString_encodeString name _ hname,
    readString_encodeString symbol _ hsymbol,
    readString_encodeString icon _ hicon,
    readString_encodeString home r hhome]

/-- C6.  Round-trip of the record codecs: for every valid memo payload
(`is_initialized`, 32-byte authority, content) and every valid
token-metadata payload (32-byte mint, name, symbol, icon, home), borsh
deserialization of the borsh serialization yields the original value. -/
theorem codec_round_trip :
    (∀ m : Memo, m.valid → decodeMemoExact (encodeMemo m) = some m) ∧
    (∀ t : TokenMetadata, t.valid →
      decodeTokenMetadataExact (encodeTokenMetadata t) = some t) := by
  constructor
  · intro m hm
    obtain ⟨hauth, -, -, hlen⟩ := hm
    unfold decodeMemoExact
    rw [show encodeMemo m = encodeMemo m ++ [] by simp,
      decodeMemo_encodeMemo m [] hauth hlen]
  · intro t ht
    obtain ⟨hmint, -, -, hname, -, hsymbol, -, hicon, -, hhome⟩ := ht
    unfold decodeTokenMetadataExact
    rw [show encodeTokenMetadata t = encodeTokenMetadata t ++ [] by simp,
      decodeTokenMetadata_encodeTokenMetadata t [] hmint hname hsymbol hicon hhome]

/-- Witness for C6: the round trip evaluated on a concrete memo record and
a concrete token-metadata record. -/
theorem codec_round_trip_witness :
    (Memo.valid ⟨true, List.replicate 32 7, [104, 105]⟩ ∧
      decodeMemoExact (encodeMemo ⟨true, List.replicate 32 7, [104, 105]⟩) =
        some ⟨true, List.replicate 32 7, [104, 105]⟩) ∧
    (TokenMetadata.valid ⟨List.replicate 32 5, [65], [66, 67], [68], [69]⟩ ∧
      decodeTokenMetadataExact
          (encodeTokenMetadata ⟨List.replicate 32 5, [65], [66, 67], [68], [69]⟩) =
        some ⟨List.replicate 32 5, [65], [66, 67], [68], [69]⟩) :=
  ⟨⟨by decide, codec_round_trip.1 _ (by decide)⟩,
   ⟨by decide, codec_round_trip.2 _ (by decide)⟩⟩

/-! ## Claim theorems: content cap and dispatch -/

/-- C9.  The memo content cap: whenever the content's byte length exceeds
`Memo::MAX_CONTENT_LENGTH` (1000), both the create handler and the update
handler fail with `MemoTooLong` as their very first check — for every
program id, rent schedule and account line-up, so no account is created
and no record byte is written. -/
theorem memo_content_cap_enforced (pid : Pubkey) (rent : Rent)
    (payerInfo memoAccountInfoA authorityInfoA systemProgramInfo : AccountInfo)
    (restA : List AccountInfo) (authorityInfoU memoAccountInfoU : AccountInfo)
    (restU : List AccountInfo) (content : List Nat)
    (h : Memo.MAX_CONTENT_LENGTH < content.length) :
    processInit pid rent
        (payerInfo :: memoAccountInfoA :: authorityInfoA ::
          systemProgramInfo :: restA) content = .error .memoTooLong ∧
    processUpdate pid (authorityInfoU :: memoAccountInfoU :: restU) content =
      .error .memoTooLong := by
  constructor
  · simp [processInit, h]
  · simp [processUpdate, h]

/-- Witness for C9: a 1001-byte content makes both handlers fail
`MemoTooLong` on concrete accounts. -/
theorem memo_content_cap_enforced_witness :
    Memo.MAX_CONTENT_LENGTH < (List.replicate 1001 104).length ∧
    processInit [7] ⟨1, 2⟩
        (⟨[1], true, 50, [], systemProgramId⟩ :: ⟨[2], true, 0, [], systemProgramId⟩ ::
          ⟨[3], true, 0, [], systemProgramId⟩ :: ⟨[4], false, 0, [], systemProgramId⟩ :: [])
        (List.replicate 1001 104) = .error .memoTooLong ∧
    processUpdate [7] (⟨[3], true, 0, [], systemProgramId⟩ ::
        ⟨[2], false, 30, [], [7]⟩ :: []) (List.replicate 1001 104) =
      .error .memoTooLong := by
  have h : Memo.MAX_CONTENT_LENGTH < (List.replicate 1001 104).length := by
    rw [List.length_replicate]
    norm_num [Memo.MAX_CONTENT_LENGTH]
  exact ⟨h, memo_content_cap_enforced [7] ⟨1, 2⟩ _ _ _ _ [] _ _ []
    (List.replicate 1001 104) h⟩

/-- C7.  Unknown discriminators are rejected before any record is touched:
for every account line-up and every instruction byte string whose leading
byte is outside the memo program's enumeration 0/1/2 the memo dispatcher
fails with `InvalidInstruction`, and outside the token-metadata program's
enumeration 0/1 the token dispatcher fails with its Borsh decode error —
in both cases returning an error for every possible account state, so no
record is read or mutated. -/
theorem unknown_discriminator_rejected
    (fpa : List (List Nat) → Pubkey → Pubkey × Nat) (pid : Pubkey) (rent : Rent)
    (accounts : List AccountInfo) (v : Nat) (rest : List Nat) :
    (2 < v → memoProcess pid rent accounts (v :: rest) = .error .invalidInstruction) ∧
    (1 < v → tokenProcess fpa pid rent accounts (v :: rest) = .error .borshIoError) := by
  constructor
  · intro hv
    have h0 : v ≠ 0 := by omega
    have h1 : v ≠ 1 := by omega
    have h2 : v ≠ 2 := by omega
    simp [memoProcess, decodeMemoIx, h0, h1, h2]
  · intro hv
    have h0 : v ≠ 0 := by omega
    have h1 : v ≠ 1 := by omega
    simp [tokenProcess, decodeTokenIx, h0, h1]

/-- Witness for C7: discriminator 3 is rejected by the memo dispatcher and
discriminator 2 by the token-metadata dispatcher, on concrete accounts. -/
theorem unknown_discriminator_rejected_witness :
    ((2 : Nat) < 3 ∧
      memoProcess [7] ⟨1, 2⟩ [⟨[1], true, 50, [], systemProgramId⟩] [3, 0, 0] =
        .error .invalidInstruction) ∧
    ((1 : Nat) < 2 ∧
      tokenProcess (fun _ _ => ([9], 255)) [7] ⟨1, 2⟩
          [⟨[1], true, 50, [], systemProgramId⟩] [2, 0, 0] = .error .borshIoError) :=
  ⟨⟨by decide, (unknown_discriminator_rejected (fun _ _ => ([9], 255)) [7] ⟨1, 2⟩
      [⟨[1], true, 50, [], systemProgramId⟩] 3 [0, 0]).1 (by decide)⟩,
   ⟨by decide, (unknown_discriminator_rejected (fun _ _ => ([9], 255)) [7] ⟨1, 2⟩
      [⟨[1], true, 50, [], systemProgramId⟩] 2 [0, 0]).2 (by decide)⟩⟩

/-! ## Helper lemmas about the primitives -/

/-- An empty buffer never deserializes to a memo record. -/
theorem decodeMemoExact_ne_nil (bs : List Nat) (m : Memo)
    (h : decodeMemoExact bs = some m) : bs ≠ [] := by
  intro hbs
  rw [hbs] at h
  simp [decodeMemoExact, decodeMemo, readBool] at h

/-- An empty buffer never deserializes to a token-metadata record. -/
theorem decodeTokenMetadataExact_ne_nil (bs : List Nat) (t : TokenMetadata)
    (h : decodeTokenMetadataExact bs = some t) : bs ≠ [] := by
  intro hbs
  rw [hbs] at h
  simp [decodeTokenMetadataExact, decodeTokenMetadata, readBytes] at h

/-- Creating an account over a target that already holds data fails
`AlreadyInitialized`. -/
theorem createAccount_existing (ownerPid : Pubkey) (lamports space : Nat)
    (payer target : AccountInfo) (h : target.data ≠ []) :
    createAccount ownerPid lamports space payer target = .error .alreadyInitialized := by
  unfold createAccount
  rw [if_pos (Or.inr (Or.inl h))]

/-- A successful `checked_add` is the exact sum, inside the u64 range. -/
theorem checkedAdd_eq_some (a b w : Nat) (h : checkedAdd a b = some w) :
    w = a + b ∧ a + b < 18446744073709551616 := by
  unfold checkedAdd at h
  by_cases hb : a + b < 18446744073709551616
  · rw [if_pos hb] at h
    exact ⟨(Option.some.inj h).symm, hb⟩
  · rw [if_neg hb] at h
    exact absurd h (by simp)

/-! ## Claim C1: authorization enforcement -/

/-- C1 counterexample.  The token-metadata `UpdateMetadata` handler does
not enforce any stored authority: on a registered metadata record (20
bytes of prior data, owned by program `[7]` at the derived PDA `[9]`), an
update signed by caller `[2]` — who is not whatever party registered the
record, whose payload stores no authority at all — succeeds and rewrites
the record's bytes, instead of failing `Unauthorized` with the bytes
unchanged as the claim requires. -/
theorem token_update_no_authority_check_cex :
    processUpdateMetadata (fun _ _ => ([9], 255)) [7]
        [⟨[2], true, 0, [], systemProgramId⟩,
         ⟨[9], false, 100, List.replicate 20 1, [7]⟩,
         ⟨[5], false, 0, [], systemProgramId⟩,
         ⟨[6], false, 0, [], systemProgramId⟩] [] [] [] [] =
      .ok [⟨[2], true, 0, [], systemProgramId⟩,
           ⟨[9], false, 100,
            [5, 0, 0, 0, 0, 0, 0, 0, 0, 0, 0, 0, 0, 0, 0, 0, 0, 1, 1, 1], [7]⟩,
           ⟨[5], false, 0, [], systemProgramId⟩,
           ⟨[6], false, 0, [], systemProgramId⟩] ∧
    [5, 0, 0, 0, 0, 0, 0, 0, 0, 0, 0, 0, 0, 0, 0, 0, 0, 1, 1, 1] ≠
      List.replicate 20 1 := by
  constructor
  · rfl
  · decide

/-- C1 (amended).  For the memo program the claim holds: an Update or
Delete whose verified signing caller differs from the authority stored in
the record's payload fails `Unauthorized` (so the host ledger discards
every write and the record's bytes are unchanged) — for every program id,
every record that is program-owned and deserializes to an initialized
memo, and (for Update) every content within the 1000-byte cap.  The
token-metadata `UpdateMetadata` is excluded: its payload stores no
authority and the handler performs no stored-authority check (see the
counterexample). -/
theorem memo_unauthorized_rejects (pid : Pubkey)
    (authorityInfo memoAccountInfo receiverInfo : AccountInfo)
    (restU restD : List AccountInfo) (content : List Nat) (m : Memo)
    (hcap : content.length ≤ Memo.MAX_CONTENT_LENGTH)
    (howner : memoAccountInfo.owner = pid)
    (hsig : authorityInfo.isSigner = true)
    (hdec : decodeMemoExact memoAccountInfo.data = some m)
    (hinit : m.is_initialized = true)
    (hauth : m.authority ≠ authorityInfo.key) :
    processUpdate pid (authorityInfo :: memoAccountInfo :: restU) content =
      .error .unauthorized ∧
    processDelete pid (authorityInfo :: memoAccountInfo :: receiverInfo :: restD) =
      .error .unauthorized := by
  have hcap2 : ¬ (Memo.MAX_CONTENT_LENGTH < content.length) := not_lt.mpr hcap
  constructor
  · simp [processUpdate, hcap2, howner, hsig, hdec, hinit, hauth]
  · simp [processDelete, howner, hsig, hdec, hinit, hauth]

/-- Witness for C1: caller key `replicate 32 2` differs from the stored
authority `replicate 32 1`; Update and Delete both fail `Unauthorized` on
concrete accounts. -/
theorem memo_unauthorized_rejects_witness :
    processUpdate [7]
        [⟨List.replicate 32 2, true, 0, [], systemProgramId⟩,
         ⟨[9], false, 30, encodeMemo ⟨true, List.replicate 32 1, [104, 105]⟩, [7]⟩]
        [110] = .error .unauthorized ∧
    processDelete [7]
        [⟨List.replicate 32 2, true, 0, [], systemProgramId⟩,
         ⟨[9], false, 30, encodeMemo ⟨true, List.replicate 32 1, [104, 105]⟩, [7]⟩,
         ⟨[4], false, 10, [], systemProgramId⟩] = .error .unauthorized :=
  memo_unauthorized_rejects [7]
    ⟨List.replicate 32 2, true, 0, [], systemProgramId⟩
    ⟨[9], false, 30, encodeMemo ⟨true, List.replicate 32 1, [104, 105]⟩, [7]⟩
    ⟨[4], false, 10, [], systemProgramId⟩ [] [] [110]
    ⟨true, List.replicate 32 1, [104, 105]⟩
    (by decide) rfl rfl (by decide) rfl (by decide)

/-! ## Claim C2: no silent overwrite on Create -/

/-- C2 counterexample.  Create targeting an address that already holds an
Active memo record is claimed to fail `AlreadyInitialized` regardless of
the new payload's contents; but a new payload whose content is 1001 bytes
fails earlier with `MemoTooLong` — the content cap runs before the
existence check.  (The existing record is still untouched.) -/
theorem create_on_active_oversize_cex :
    processInit [7] ⟨1, 2⟩
        [⟨[1], true, 1000000000, [], systemProgramId⟩,
         ⟨[9], false, 30, encodeMemo ⟨true, List.replicate 32 1, [104, 105]⟩, [7]⟩,
         ⟨List.replicate 32 1, true, 0, [], systemProgramId⟩,
         ⟨[4], false, 0, [], systemProgramId⟩]
        (List.replicate 1001 104) = .error .memoTooLong ∧
    ProgError.memoTooLong ≠ ProgError.alreadyInitialized := by
  constructor
  · have h : Memo.MAX_CONTENT_LENGTH < (List.replicate 1001 104).length := by
      rw [List.length_replicate]
      norm_num [Memo.MAX_CONTENT_LENGTH]
    generalize hgen : List.replicate 1001 104 = c at h ⊢
    simp [processInit, h]
  · decide

/-- C2 (amended).  Create never silently overwrites: for every Create
whose payload passes the module's earlier per-payload checks, an existing
record at the target address makes the operation fail
`AlreadyInitialized` and the existing record is untouched.  For the memo
program this needs the new content within the 1000-byte cap and both
signatures present (oversize payloads fail earlier with `MemoTooLong`,
likewise leaving the record untouched — see the counterexample); for the
token-metadata program it needs the signature and the PDA re-derivation
to match, and holds for every payload. -/
theorem create_no_overwrite (pid : Pubkey) (rent : Rent)
    (payerInfo memoAccountInfo authorityInfo systemProgramInfo : AccountInfo)
    (restM : List AccountInfo) (content : List Nat) (m : Memo)
    (fpa : List (List Nat) → Pubkey → Pubkey × Nat)
    (authorityInfoT metadataAccountInfo mintAccountInfo splTokenProgramInfo
      systemProgramInfoT : AccountInfo) (restT : List AccountInfo)
    (name symbol icon home : List Nat) (t : TokenMetadata)
    (hcap : content.length ≤ Memo.MAX_CONTENT_LENGTH)
    (hp : payerInfo.isSigner = true) (ha : authorityInfo.isSigner = true)
    (hdec : decodeMemoExact memoAccountInfo.data = some m)
    (hsigT : authorityInfoT.isSigner = true)
    (hpda : (fpa [metadataSeed, splTokenProgramInfo.key, mintAccountInfo.key] pid).1 =
      metadataAccountInfo.key)
    (hdecT : decodeTokenMetadataExact metadataAccountInfo.data = some t) :
    processInit pid rent
        (payerInfo :: memoAccountInfo :: authorityInfo :: systemProgramInfo :: restM)
        content = .error .alreadyInitialized ∧
    processRegisterMetadata fpa pid rent
        (authorityInfoT :: metadataAccountInfo :: mintAccountInfo ::
          splTokenProgramInfo :: systemProgramInfoT :: restT)
        name symbol icon home = .error .alreadyInitialized := by
  have hcap2 : ¬ (Memo.MAX_CONTENT_LENGTH < content.length) := not_lt.mpr hcap
  have hne : memoAccountInfo.data ≠ [] := decodeMemoExact_ne_nil _ _ hdec
  have hneT : metadataAccountInfo.data ≠ [] := decodeTokenMetadataExact_ne_nil _ _ hdecT
  constructor
  · simp only [processInit]
    rw [if_neg hcap2, if_neg (by simp [hp]), if_neg (by simp [ha]),
      createAccount_existing _ _ _ _ _ hne]
  · simp only [processRegisterMetadata]
    rw [if_neg (by simp [hsigT]), if_neg (by simp [hpda]),
      createAccount_existing _ _ _ _ _ hneT]

/-- Witness for C2: Create over a concrete Active memo record and
RegisterMetadata over a concrete registered metadata record both fail
`AlreadyInitialized`. -/
theorem create_no_overwrite_witness :
    processInit [7] ⟨1, 2⟩
        [⟨[1], true, 1000000000, [], systemProgramId⟩,
         ⟨[9], false, 30, encodeMemo ⟨true, List.replicate 32 1, [104, 105]⟩, [7]⟩,
         ⟨List.replicate 32 1, true, 0, [], systemProgramId⟩,
         ⟨[4], false, 0, [], systemProgramId⟩] [104] = .error .alreadyInitialized ∧
    processRegisterMetadata (fun _ _ => ([9], 255)) [7] ⟨1, 2⟩
        [⟨[2], true, 1000000000, [], systemProgramId⟩,
         ⟨[9], false, 50,
          encodeTokenMetadata ⟨List.replicate 32 5, [65], [66], [67], [68]⟩, [7]⟩,
         ⟨List.replicate 32 5, false, 0, [], systemProgramId⟩,
         ⟨[6], false, 0, [], systemProgramId⟩,
         ⟨[4], false, 0, [], systemProgramId⟩] [70] [71] [72] [73] =
      .error .alreadyInitialized :=
  create_no_overwrite [7] ⟨1, 2⟩
    ⟨[1], true, 1000000000, [], systemProgramId⟩
    ⟨[9], false, 30, encodeMemo ⟨true, List.replicate 32 1, [104, 105]⟩, [7]⟩
    ⟨List.replicate 32 1, true, 0, [], systemProgramId⟩
    ⟨[4], false, 0, [], systemProgramId⟩ [] [104]
    ⟨true, List.replicate 32 1, [104, 105]⟩
    (fun _ _ => ([9], 255))
    ⟨[2], true, 1000000000, [], systemProgramId⟩
    ⟨[9], false, 50,
     encodeTokenMetadata ⟨List.replicate 32 5, [65], [66], [67], [68]⟩, [7]⟩
    ⟨List.replicate 32 5, false, 0, [], systemProgramId⟩
    ⟨[6], false, 0, [], systemProgramId⟩
    ⟨[4], false, 0, [], systemProgramId⟩ [] [70] [71] [72] [73]
    ⟨List.replicate 32 5, [65], [66], [67], [68]⟩
    (by decide) rfl rfl (by decide) rfl rfl (by decide)

/-! ## Claim C4: oversize Update payloads -/

/-- C4 counterexample.  An Update by the record's authority whose new
encoded payload (1001-byte content, encoding longer than the 39 allocated
bytes) exceeds the allocation is claimed to fail `DataTooLarge`; it
fails with `MemoTooLong` instead, because the 1000-byte content cap is
checked first. -/
theorem update_oversize_content_cex :
    processUpdate [7]
        [⟨List.replicate 32 1, true, 0, [], systemProgramId⟩,
         ⟨[9], false, 30, encodeMemo ⟨true, List.replicate 32 1, [104, 105]⟩, [7]⟩]
        (List.replicate 1001 104) = .error .memoTooLong ∧
    ProgError.memoTooLong ≠ ProgError.dataTooLarge := by
  constructor
  · have h : Memo.MAX_CONTENT_LENGTH < (List.replicate 1001 104).length := by
      rw [List.length_replicate]
      norm_num [Memo.MAX_CONTENT_LENGTH]
    generalize hgen : List.replicate 1001 104 = c at h ⊢
    simp [processUpdate, h]
  · decide

/-- C4 (amended).  An Update on an Active record by its authority whose
new encoded payload is longer than the record's allocated byte length
fails with `DataTooLarge` (the serialization-into-buffer failure; the
host discards the transaction's writes, so no byte of the record is
observably modified) — provided the new content is within the 1000-byte
cap; contents beyond the cap fail earlier with `MemoTooLong`, likewise
without modifying the record (see the counterexample). -/
theorem update_data_too_large (pid : Pubkey)
    (authorityInfo memoAccountInfo : AccountInfo) (rest : List AccountInfo)
    (content : List Nat) (m : Memo)
    (hcap : content.length ≤ Memo.MAX_CONTENT_LENGTH)
    (howner : memoAccountInfo.owner = pid)
    (hsig : authorityInfo.isSigner = true)
    (hdec : decodeMemoExact memoAccountInfo.data = some m)
    (hinit : m.is_initialized = true)
    (hauth : m.authority = authorityInfo.key)
    (hlen : memoAccountInfo.data.length <
      (encodeMemo { m with content := content }).length) :
    processUpdate pid (authorityInfo :: memoAccountInfo :: rest) content =
      .error .dataTooLarge := by
  have hcap2 : ¬ (Memo.MAX_CONTENT_LENGTH < content.length) := not_lt.mpr hcap
  simp only [hinit, hauth] at hlen
  simp [processUpdate, hcap2, howner, hsig, hdec, hinit, hauth, writeData, hlen]

/-- Witness for C4: the authority updates a 39-byte record with a 3-byte
content whose encoding needs 40 bytes; the update fails `DataTooLarge`. -/
theorem update_data_too_large_witness :
    processUpdate [7]
        [⟨List.replicate 32 1, true, 0, [], systemProgramId⟩,
         ⟨[9], false, 30, encodeMemo ⟨true, List.replicate 32 1, [104, 105]⟩, [7]⟩]
        [106, 107, 108] = .error .dataTooLarge :=
  update_data_too_large [7]
    ⟨List.replicate 32 1, true, 0, [], systemProgramId⟩
    ⟨[9], false, 30, encodeMemo ⟨true, List.replicate 32 1, [104, 105]⟩, [7]⟩
    [] [106, 107, 108] ⟨true, List.replicate 32 1, [104, 105]⟩
    (by decide) rfl rfl (by decide) rfl rfl (by decide)

/-! ## Claim C3: Close zeroes the record and refunds fully -/

/-- C3.  Whenever Delete/Close succeeds, the returned state has every byte
of the record's data region zero, the record's balance zero, and the
receiver's balance increased by exactly the record's pre-Close balance. -/
theorem close_zeroes_and_refunds (pid : Pubkey)
    (authorityInfo memoAccountInfo receiverInfo : AccountInfo)
    (rest res : List AccountInfo)
    (h : processDelete pid
      (authorityInfo :: memoAccountInfo :: receiverInfo :: rest) = .ok res) :
    res = authorityInfo ::
      { memoAccountInfo with
          lamports := 0
          data := List.replicate memoAccountInfo.data.length 0 } ::
      { receiverInfo with
          lamports := receiverInfo.lamports + memoAccountInfo.lamports } :: rest := by
  simp only [processDelete] at h
  split at h
  · simp at h
  split at h
  · simp at h
  split at h
  · simp at h
  split at h
  · simp at h
  split at h
  · simp at h
  split at h
  · simp at h
  rename_i w hca
  obtain ⟨hw, -⟩ := checkedAdd_eq_some _ _ _ hca
  rw [← Except.ok.inj h, hw]

/-- Witness for C3: a concrete successful Close by the stored authority;
the 39 record bytes are zeroed, its 30 lamports move to the receiver. -/
theorem close_zeroes_and_refunds_witness :
    processDelete [7]
        [⟨List.replicate 32 1, true, 0, [], systemProgramId⟩,
         ⟨[9], false, 30, encodeMemo ⟨true, List.replicate 32 1, [104, 105]⟩, [7]⟩,
         ⟨[4], false, 10, [], systemProgramId⟩] =
      .ok [⟨List.replicate 32 1, true, 0, [], systemProgramId⟩,
           ⟨[9], false, 0, List.replicate 39 0, [7]⟩,
           ⟨[4], false, 40, [], systemProgramId⟩] ∧
    [⟨List.replicate 32 1, true, 0, [], systemProgramId⟩,
     ⟨[9], false, 0, List.replicate 39 0, [7]⟩,
     ⟨[4], false, 40, [], systemProgramId⟩] =
      ⟨List.replicate 32 1, true, 0, [], systemProgramId⟩ ::
      ({ AccountInfo.mk [9] false 30
          (encodeMemo ⟨true, List.replicate 32 1, [104, 105]⟩) [7] with
          lamports := 0
          data := List.replicate
            (encodeMemo ⟨true, (List.replicate 32 1 : List Nat), [104, 105]⟩).length 0 }) ::
      ({ AccountInfo.mk [4] false 10 [] systemProgramId with lamports := 10 + 30 }) :: [] :=
  ⟨rfl,
   close_zeroes_and_refunds [7]
     ⟨List.replicate 32 1, true, 0, [], systemProgramId⟩
     ⟨[9], false, 30, encodeMemo ⟨true, List.replicate 32 1, [104, 105]⟩, [7]⟩
     ⟨[4], false, 10, [], systemProgramId⟩ []
     [⟨List.replicate 32 1, true, 0, [], systemProgramId⟩,
      ⟨[9], false, 0, List.replicate 39 0, [7]⟩,
      ⟨[4], false, 40, [], systemProgramId⟩] rfl⟩

/-! ## Claim C5: balance arithmetic never saturates -/

/-- C5.  Lamport arithmetic is checked, never silently saturating.  First:
in Delete, when adding the record's balance to the receiver would leave
the u64 range, the whole operation fails `ArithmeticOverflow` (this is the
only balance addition the programs perform).  Second: the rent-shortfall
subtraction in `check_rent_exemption`, though written with
`saturating_sub`, is guarded by the exemption test and therefore always
exact — whenever a shortfall is reported, balance plus shortfall equals
exactly the rent-exempt minimum, so the saturating operation never
truncates and no over- or underflow can reach it. -/
theorem balance_arithmetic_checked :
    (∀ (pid : Pubkey) (authorityInfo memoAccountInfo receiverInfo : AccountInfo)
        (rest : List AccountInfo) (m : Memo),
      memoAccountInfo.owner = pid → authorityInfo.isSigner = true →
      decodeMemoExact memoAccountInfo.data = some m → m.is_initialized = true →
      m.authority = authorityInfo.key →
      18446744073709551616 ≤ receiverInfo.lamports + memoAccountInfo.lamports →
      processDelete pid (authorityInfo :: memoAccountInfo :: receiverInfo :: rest) =
        .error .arithmeticOverflow) ∧
    (∀ (fpa : List (List Nat) → Pubkey → Pubkey × Nat) (pid : Pubkey) (rent : Rent)
        (pdaAccount : AccountInfo) (rest : List AccountInfo) (seed : List Nat)
        (required : Nat),
      checkRentExemption fpa pid rent (pdaAccount :: rest) seed = .ok (some required) →
      pdaAccount.lamports + required = rent.minimumBalance pdaAccount.data.length) := by
  constructor
  · intro pid authorityInfo memoAccountInfo receiverInfo rest m howner hsig hdec
      hinit hauth hbound
    have hno : ¬ (receiverInfo.lamports + memoAccountInfo.lamports <
        18446744073709551616) := not_lt.mpr hbound
    simp [processDelete, howner, hsig, hdec, hinit, hauth, checkedAdd, hno]
  · intro fpa pid rent pdaAccount rest seed required h
    simp only [checkRentExemption] at h
    split at h
    · simp at h
    split at h
    · simp at h
    rename_i hex
    have hlt : pdaAccount.lamports < rent.minimumBalance pdaAccount.data.length := by
      simpa [Rent.isExempt] using hex
    have hreq : required =
        rent.minimumBalance pdaAccount.data.length - pdaAccount.lamports := by
      have := Except.ok.inj h
      exact (Option.some.inj this).symm
    omega

/-- Witness for C5: a Delete whose receiver balance is one below the u64
limit fails `ArithmeticOverflow`; a non-exempt concrete account (28
lamports, empty data, with rent parameters giving a 128-lamport minimum)
reports exactly the 100-lamport shortfall. -/
theorem balance_arithmetic_checked_witness :
    processDelete [7]
        [⟨List.replicate 32 1, true, 0, [], systemProgramId⟩,
         ⟨[9], false, 30, encodeMemo ⟨true, List.replicate 32 1, [104, 105]⟩, [7]⟩,
         ⟨[4], false, 18446744073709551615, [], systemProgramId⟩] =
      .error .arithmeticOverflow ∧
    (checkRentExemption (fun _ _ => ([3], 255)) [7] ⟨1, 1⟩
        [⟨[3], false, 28, [], systemProgramId⟩] [115] = .ok (some 100) ∧
      (28 : Nat) + 100 = Rent.minimumBalance ⟨1, 1⟩ 0) :=
  ⟨balance_arithmetic_checked.1 [7]
     ⟨List.replicate 32 1, true, 0, [], systemProgramId⟩
     ⟨[9], false, 30, encodeMemo ⟨true, List.replicate 32 1, [104, 105]⟩, [7]⟩
     ⟨[4], false, 18446744073709551615, [], systemProgramId⟩ []
     ⟨true, List.replicate 32 1, [104, 105]⟩
     rfl rfl (by decide) rfl rfl (by decide),
   ⟨rfl, balance_arithmetic_checked.2 (fun _ _ => ([3], 255)) [7] ⟨1, 1⟩
     ⟨[3], false, 28, [], systemProgramId⟩ [] [115] 100 rfl⟩⟩

/-! ## Claim C10: Update preserves the frame -/

/-- A successful buffer write means the encoding fit and overwrote only
the front of the buffer. -/
theorem writeData_eq_ok (buf enc out : List Nat) (h : writeData buf enc = .ok out) :
    enc.length ≤ buf.length ∧ out = enc ++ buf.drop enc.length := by
  unfold writeData at h
  by_cases hb : buf.length < enc.length
  · rw [if_pos hb] at h
    exact absurd h (by simp)
  · rw [if_neg hb] at h
    exact ⟨not_lt.mp hb, (Except.ok.inj h).symm⟩

/-- Writing a fitting encoding over the front of a buffer keeps the
buffer's length. -/
theorem write_preserves_length (buf enc : List Nat) (h : enc.length ≤ buf.length) :
    (enc ++ buf.drop enc.length).length = buf.length := by
  simp only [List.length_append, List.length_drop]
  omega

/-- Writing a fitting encoding over the front of a buffer keeps every byte
at or past the encoding's length. -/
theorem write_preserves_suffix (buf enc : List Nat) (i : Nat) (h : enc.length ≤ i) :
    (enc ++ buf.drop enc.length)[i]? = buf[i]? := by
  rw [List.getElem?_append_right h, List.getElem?_drop]
  congr 1
  omega

/-- C10.  Every successful memo Update leaves the record's allocated byte
length and its lamport balance unchanged (the result record differs only
in its data field), rewrites only the bytes covered by the new encoding,
and keeps every trailing byte at its previous value when the new encoding
is shorter than the buffer. -/
theorem update_preserves_frame (pid : Pubkey)
    (authorityInfo memoAccountInfo : AccountInfo) (rest res : List AccountInfo)
    (content : List Nat)
    (h : processUpdate pid (authorityInfo :: memoAccountInfo :: rest) content =
      .ok res) :
    ∃ m : Memo,
      decodeMemoExact memoAccountInfo.data = some m ∧
      (encodeMemo { m with content := content }).length ≤ memoAccountInfo.data.length ∧
      res = authorityInfo ::
        { memoAccountInfo with
            data := encodeMemo { m with content := content } ++
              memoAccountInfo.data.drop
                (encodeMemo { m with content := content }).length } :: rest ∧
      (encodeMemo { m with content := content } ++
        memoAccountInfo.data.drop
          (encodeMemo { m with content := content }).length).length =
        memoAccountInfo.data.length ∧
      ∀ i : Nat, (encodeMemo { m with content := content }).length ≤ i →
        (encodeMemo { m with content := content } ++
          memoAccountInfo.data.drop
            (encodeMemo { m with content := content }).length)[i]? =
          memoAccountInfo.data[i]? := by
  simp only [processUpdate] at h
  split at h
  · simp at h
  split at h
  · simp at h
  split at h
  · simp at h
  split at h
  · simp at h
  rename_i memoData hdec
  split at h
  · simp at h
  split at h
  · simp at h
  split at h
  · simp at h
  rename_i newData hwd
  obtain ⟨hle, hout⟩ := writeData_eq_ok _ _ _ hwd
  subst hout
  refine ⟨memoData, hdec, hle, (Except.ok.inj h).symm, ?_, ?_⟩
  · exact write_preserves_length _ _ hle
  · intro i hi
    exact write_preserves_suffix _ _ i hi

/-- Witness for C10: the authority rewrites a 39-byte record with a
1-byte content; the new 38-byte encoding is written over the front and
the final stale byte (105) survives, with balance and length intact. -/
theorem update_preserves_frame_witness :
    ∃ m : Memo,
      decodeMemoExact (AccountInfo.mk [9] false 30
          (encodeMemo ⟨true, List.replicate 32 1, [104, 105]⟩) [7]).data = some m ∧
      (encodeMemo { m with content := [106] }).length ≤
        (AccountInfo.mk [9] false 30
          (encodeMemo ⟨true, List.replicate 32 1, [104, 105]⟩) [7]).data.length ∧
      [AccountInfo.mk (List.replicate 32 1) true 0 [] systemProgramId,
       AccountInfo.mk [9] false 30
        (encodeMemo ⟨true, List.replicate 32 1, [106]⟩ ++ [105]) [7]] =
        AccountInfo.mk (List.replicate 32 1) true 0 [] systemProgramId ::
        { AccountInfo.mk [9] false 30
            (encodeMemo ⟨true, List.replicate 32 1, [104, 105]⟩) [7] with
            data := encodeMemo { m with content := [106] } ++
              (AccountInfo.mk [9] false 30
                (encodeMemo ⟨true, List.replicate 32 1, [104, 105]⟩) [7]).data.drop
                (encodeMemo { m with content := [106] }).length } :: [] ∧
      (encodeMemo { m with content := [106] } ++
        (AccountInfo.mk [9] false 30
          (encodeMemo ⟨true, List.replicate 32 1, [104, 105]⟩) [7]).data.drop
          (encodeMemo { m with content := [106] }).length).length =
        (AccountInfo.mk [9] false 30
          (encodeMemo ⟨true, List.replicate 32 1, [104, 105]⟩) [7]).data.length ∧
      ∀ i : Nat, (encodeMemo { m with content := [106] }).length ≤ i →
        (encodeMemo { m with content := [106] } ++
          (AccountInfo.mk [9] false 30
            (encodeMemo ⟨true, List.replicate 32 1, [104, 105]⟩) [7]).data.drop
            (encodeMemo { m with content := [106] }).length)[i]? =
          (AccountInfo.mk [9] false 30
            (encodeMemo ⟨true, List.replicate 32 1, [104, 105]⟩) [7]).data[i]? :=
  update_preserves_frame [7]
    (AccountInfo.mk (List.replicate 32 1) true 0 [] systemProgramId)
    (AccountInfo.mk [9] false 30
      (encodeMemo ⟨true, List.replicate 32 1, [104, 105]⟩) [7]) []
    [AccountInfo.mk (List.replicate 32 1) true 0 [] systemProgramId,
     AccountInfo.mk [9] false 30
      (encodeMemo ⟨true, List.replicate 32 1, [106]⟩ ++ [105]) [7]]
    [106] rfl

/-! ## Claim C8: address derivation is deterministic and canonical -/

/-- The bump search from any starting trial returns an off-curve address
derived from the winning bump, and every higher trial up to the start was
on curve (the 255-downward tie-break). -/
theorem fpaFrom_canonical (hash : List (List Nat) → Pubkey → Nat → Pubkey)
    (onCurve : Pubkey → Bool) (seeds : List (List Nat)) (pid : Pubkey) :
    ∀ start a b, fpaFrom hash onCurve seeds pid start = some (a, b) →
      onCurve a = false ∧ a = hash seeds pid b ∧ b ≤ start ∧
      ∀ b2, b < b2 → b2 ≤ start → onCurve (hash seeds pid b2) = true := by
  intro start
  induction start with
  | zero =>
    intro a b h
    unfold fpaFrom createProgramAddress at h
    by_cases hc : onCurve (hash seeds pid 0) = true
    · rw [if_pos hc] at h
      simp at h
    · rw [if_neg hc] at h
      obtain ⟨ha, hb⟩ := Prod.mk.injEq _ _ _ _ ▸ Option.some.inj h
      subst ha
      subst hb
      exact ⟨Bool.not_eq_true _ ▸ hc, rfl, le_refl 0, fun b2 h1 h2 => absurd h2 (by omega)⟩
  | succ n ih =>
    intro a b h
    unfold fpaFrom createProgramAddress at h
    by_cases hc : onCurve (hash seeds pid (n + 1)) = true
    · rw [if_pos hc] at h
      obtain ⟨h1, h2, h3, h4⟩ := ih a b h
      refine ⟨h1, h2, by omega, fun b2 hb2 hb2n => ?_⟩
      by_cases hb2e : b2 = n + 1
      · rw [hb2e]
        exact hc
      · exact h4 b2 hb2 (by omega)
    · rw [if_neg hc] at h
      obtain ⟨ha, hb⟩ := Prod.mk.injEq _ _ _ _ ▸ Option.some.inj h
      subst ha
      subst hb
      exact ⟨Bool.not_eq_true _ ▸ hc, rfl, le_refl _,
        fun b2 h1 h2 => absurd h2 (by omega)⟩

/-- C8.  `find_program_address` is deterministic — two runs on the same
`(seeds, module id)` (and the same host hash and curve predicate, of which
the result is a pure function) yield the identical `(address, bump)` pair
— and the returned bump is canonical: the address is off curve, it is the
hash of the seeds, module id and bump, and every larger bump up to 255
was rejected as on-curve, i.e. the 255-downward search's documented
tie-break. -/
theorem derive_deterministic_canonical
    (hash : List (List Nat) → Pubkey → Nat → Pubkey) (onCurve : Pubkey → Bool)
    (seeds : List (List Nat)) (pid : Pubkey) :
    findProgramAddress hash onCurve seeds pid =
      findProgramAddress hash onCurve seeds pid ∧
    ∀ a b, findProgramAddress hash onCurve seeds pid = some (a, b) →
      onCurve a = false ∧ a = hash seeds pid b ∧ b ≤ 255 ∧
      ∀ b2, b < b2 → b2 ≤ 255 → onCurve (hash seeds pid b2) = true :=
  ⟨rfl, fun a b h => fpaFrom_canonical hash onCurve seeds pid 255 a b h⟩

/-- Witness for C8: with a hash returning the bump as a singleton address
and the curve containing only `[255]`, the search rejects bump 255 and
deterministically lands on bump 254. -/
theorem derive_deterministic_canonical_witness :
    findProgramAddress (fun _ _ b => [b]) (fun a => decide (a = [255])) [[1]] [7] =
      some ([254], 254) ∧
    ((fun a => decide (a = [255])) [254] = false ∧
      [254] = (fun (_ : List (List Nat)) (_ : Pubkey) (b : Nat) => [b]) [[1]] [7] 254 ∧
      254 ≤ 255 ∧
      ∀ b2, 254 < b2 → b2 ≤ 255 →
        (fun a => decide (a = [255]))
          ((fun (_ : List (List Nat)) (_ : Pubkey) (b : Nat) => [b]) [[1]] [7] b2) =
          true) :=
  ⟨rfl, (derive_deterministic_canonical (fun _ _ b => [b])
    (fun a => decide (a = [255])) [[1]] [7]).2 [254] 254 rfl⟩
